import Mathlib

/-!
Verification of the Golf-Scorecard repository core against its design
specification.

The development shallowly embeds the two Python source files:

* `golfapitest.py` — the endpoint resolver (shape-discovery probing loops
  `search_courses`, `search_courses_by_state`, `get_course_by_id`,
  `health_check`), response normalization `_normalize_courses`, and the
  key-masking helper `_mask_key`;
* `golf_cli.py` — the interactive grid session `interactive_scorecard`
  (cursor moves and digit setters) and the aggregate sums of
  `show_scorecard`.

JSON documents are modelled by the inductive `JVal`; HTTP exchanges by a
stub transport, a function from the (path index, parameter-name index,
auth-style index) combination to a response.  The probing loops are
translated statement by statement from the Python source; a Python
`break` leaves exactly one loop level, which is load-bearing below.
-/

namespace Golf

/-! ## JSON values, Python truthiness, and dict access -/

/-- A decoded JSON document, as returned by `resp.json()` in the source. -/
inductive JVal where
  | null
  | bool (b : Bool)
  | num (n : Int)
  | str (s : String)
  | arr (xs : List JVal)
  | obj (fields : List (String × JVal))
deriving Repr

/-- Python truthiness of a JSON value (`bool(x)`): `None`, `False`, `0`,
`""`, `[]`, `{}` are falsy, everything else truthy. -/
def truthy : JVal → Bool
  | .null => false
  | .bool b => b
  | .num n => n != 0
  | .str s => !s.isEmpty
  | .arr xs => !xs.isEmpty
  | .obj fs => !fs.isEmpty

/-- Python `a or b`: `a` when truthy, else `b`. -/
def jor (a b : JVal) : JVal := if truthy a then a else b

/-- Python `d.get(k)` on a dict given as a field list: the value of the
first matching key, `None` when absent. -/
def jget (fields : List (String × JVal)) (k : String) : JVal :=
  match fields.find? (fun p => p.1 == k) with
  | some p => p.2
  | none => .null

/-- Whether a JSON value is a string. -/
def isStr : JVal → Bool
  | .str _ => true
  | _ => false

/-- Field count of an object, `0` for anything else.  Used only to
discriminate between concrete values without a decidable equality on
`JVal`. -/
def objSize : JVal → Nat
  | .obj fs => fs.length
  | _ => 0

/-! ## Normalization (`_normalize_courses`, golfapitest.py lines 129-141)

One element of the raw list: the Python code calls `c.get(...)`, which
raises `AttributeError` when `c` is not a dict.  All uncaught Python
exceptions are modelled by the single value `Except.error ()`. -/

/-- Normalize one raw course element (the loop body of
`_normalize_courses`). -/
def normalize_one : JVal → Except Unit JVal
  | .obj fs => .ok (.obj [
      ("id", jor (jget fs "id") (jor (jget fs "_id") (jget fs "course_id"))),
      ("name", jor (jget fs "name")
        (jor (jget fs "course_name") (.str "(Unnamed Course)"))),
      ("city", jor (jget fs "city") (jor (jget fs "town") (.str ""))),
      ("state", jor (jget fs "state") (jor (jget fs "region") (.str ""))),
      ("country", jor (jget fs "country") (.str "")),
      ("_raw", .obj fs)])
  | _ => .error ()

/-- `raw = data if isinstance(data, list) else (data.get("courses") or
data.get("results") or data.get("data") or [])`; iterating a truthy
non-list `raw`, or calling `.get` on a non-dict `data`, raises. -/
def raw_list : JVal → Except Unit (List JVal)
  | .arr xs => .ok xs
  | .obj fs =>
      match jor (jget fs "courses")
        (jor (jget fs "results") (jor (jget fs "data") (.arr []))) with
      | .arr xs => .ok xs
      | _ => .error ()
  | _ => .error ()

/-- Map a fallible element transform over a list, failing at the first
failing element (the Python `for` loop raising mid-iteration). -/
def mapE (f : JVal → Except Unit JVal) : List JVal → Except Unit (List JVal)
  | [] => .ok []
  | x :: xs =>
    match f x with
    | .error e => .error e
    | .ok y =>
      match mapE f xs with
      | .error e => .error e
      | .ok ys => .ok (y :: ys)

/-- `_normalize_courses(data)` of golfapitest.py. -/
def _normalize_courses (data : JVal) : Except Unit (List JVal) :=
  match raw_list data with
  | .error e => .error e
  | .ok xs => mapE normalize_one xs

/-! ## Key masking (`_mask_key`, golfapitest.py lines 114-115) -/

/-- `key if len(key) <= 8 else f"{key[:4]}…{key[-4:]}"`. -/
def _mask_key (key : String) : String :=
  if key.length ≤ 8 then key
  else String.mk (key.data.take 4 ++ '…' :: key.data.drop (key.data.length - 4))

/-! ## Candidate lists (golfapitest.py lines 58-88, no operator override) -/

def CANDIDATE_SEARCH_PATHS : List String :=
  ["/v1/courses/search", "/api/v1/courses/search", "/v1/search/courses",
   "/api/v1/search/courses", "/v1/courses", "/api/v1/courses"]

def CANDIDATE_GET_BY_ID_PATHS : List String :=
  ["/v1/courses/{id}", "/api/v1/courses/{id}"]

def CANDIDATE_HEALTH_PATHS : List String :=
  ["/v1/health", "/api/v1/health", "/v1/account", "/api/v1/account",
   "/v1/accounts/lookup", "/api/v1/accounts/lookup"]

def AUTH_STYLES : List String := ["key", "bearer", "x-api-key", "query"]

def QUERY_KEYS : List String := ["q", "query", "name", "course", "search"]

def STATE_KEYS : List String :=
  ["state", "state_code", "region", "admin_area", "province", "us_state",
   "countrySubdivision"]

/-! ## HTTP responses and stub transports -/

/-- The body of an HTTP response as the source consumes it:
`empty` — `resp.content` is falsy; `invalid` — content present but
`resp.json()` raises (a `requests` exception), carrying `resp.text`;
`val` — content decodes to a JSON value. -/
inductive Body where
  | empty
  | invalid (text : String)
  | val (j : JVal)

/-- Outcome of one `requests.get`: either the request itself raises a
`requests.RequestException` (`exc`), or a response arrives. -/
inductive HResp where
  | exc
  | resp (status : Nat) (body : Body)

/-- The HTTP status of a response, when one arrived. -/
def hstatus : HResp → Option Nat
  | .exc => none
  | .resp st _ => some st

/-- A stubbed deterministic transport: the response received at each
(path index, parameter-name index, auth-style index) combination. -/
abbrev Transport := Nat → Nat → Nat → HResp

/-- A stubbed transport for the two-dimensional loops (get-by-id and
health probing), which have no parameter-name dimension. -/
abbrev Transport2 := Nat → Nat → HResp

/-! ## The search probing loop
(`search_courses` golfapitest.py lines 153-175; `search_courses_by_state`
lines 192-212 is the identical loop over `STATE_KEYS`). -/

/-- What the body of the innermost search loop does with one response:
`401/403 → continue`; `404 → break` (one level, out of the auth-style
loop only); `raise_for_status` on any other status ≥ 400 raises a caught
`RequestException` (→ continue); otherwise the body is decoded
(`{}` when there is no content, a caught decode exception otherwise) and
normalized, returning on a non-empty result list and falling through to
the next style on an empty one.  A normalization failure is an uncaught
exception. -/
inductive Outcome where
  | success (results : List JVal)
  | nextStyle
  | nextParam
  | crash
deriving Repr

def searchStep (r : HResp) : Outcome :=
  match r with
  | .exc => .nextStyle
  | .resp st body =>
    if st = 401 ∨ st = 403 then .nextStyle
    else if st = 404 then .nextParam
    else if 400 ≤ st then .nextStyle
    else
      match body with
      | .invalid _ => .nextStyle
      | .empty => .nextStyle
      | .val j =>
        match _normalize_courses j with
        | .error _ => .crash
        | .ok rs => if rs.isEmpty then .nextStyle else .success rs

/-- Result of one run of the auth-style loop for a fixed
(path, parameter-name). -/
inductive StyleRes where
  | success (rs : List JVal)
  | crash
  | broke
  | fellThrough

/-- Result of a whole probing run. -/
inductive LoopRes where
  | success (rs : List JVal)
  | crash
  | fellThrough

/-- The innermost (auth-style) loop, returning the attempted
combinations in order together with how the loop ended. -/
def runStyles (t : Transport) (pi qi : Nat) :
    List Nat → List (Nat × Nat × Nat) × StyleRes
  | [] => ([], .fellThrough)
  | si :: rest =>
    match searchStep (t pi qi si) with
    | .success rs => ([(pi, qi, si)], .success rs)
    | .crash => ([(pi, qi, si)], .crash)
    | .nextParam => ([(pi, qi, si)], .broke)
    | .nextStyle =>
      let r := runStyles t pi qi rest
      ((pi, qi, si) :: r.1, r.2)

/-- The middle (parameter-name) loop.  A `break` on 404 leaves only the
auth-style loop, so both `broke` and `fellThrough` continue with the
next parameter name on the same path, exactly as in the source. -/
def runParams (t : Transport) (pi : Nat) (sis : List Nat) :
    List Nat → List (Nat × Nat × Nat) × LoopRes
  | [] => ([], .fellThrough)
  | qi :: rest =>
    let r := runStyles t pi qi sis
    match r.2 with
    | .success rs => (r.1, .success rs)
    | .crash => (r.1, .crash)
    | .broke =>
      let r2 := runParams t pi sis rest
      (r.1 ++ r2.1, r2.2)
    | .fellThrough =>
      let r2 := runParams t pi sis rest
      (r.1 ++ r2.1, r2.2)

/-- The outer (path) loop. -/
def runPaths (t : Transport) (qis sis : List Nat) :
    List Nat → List (Nat × Nat × Nat) × LoopRes
  | [] => ([], .fellThrough)
  | pi :: rest =>
    let r := runParams t pi sis qis
    match r.2 with
    | .success rs => (r.1, .success rs)
    | .crash => (r.1, .crash)
    | .fellThrough =>
      let r2 := runPaths t qis sis rest
      (r.1 ++ r2.1, r2.2)

/-- The whole probing run of `search_courses` over `np` path candidates,
`nq` parameter-name candidates and `ns` auth styles: attempted
combinations in order, and the result. -/
def search_probe (t : Transport) (np nq ns : Nat) :
    List (Nat × Nat × Nat) × LoopRes :=
  runPaths t (List.range nq) (List.range ns) (List.range np)

/-- The value `search_courses` delivers to its caller: the first
non-empty normalized result list, `[]` on exhaustion (`return []`), or
an uncaught exception. -/
def search_courses (t : Transport) (np nq ns : Nat) :
    Except Unit (List JVal) :=
  match (search_probe t np nq ns).2 with
  | .success rs => .ok rs
  | .crash => .error ()
  | .fellThrough => .ok []

/-! ## The get-by-id probing loop (golfapitest.py lines 215-229).
Two dimensions only; a 404 `break` here does reach the next path.  Any
2xx returns the decoded body (`{}` for an empty one); an undecodable
body is a caught `RequestException`. -/

inductive IdOutcome where
  | retVal (j : JVal)
  | nextStyle
  | breakPath

def idStep (r : HResp) : IdOutcome :=
  match r with
  | .exc => .nextStyle
  | .resp st body =>
    if st = 401 ∨ st = 403 then .nextStyle
    else if st = 404 then .breakPath
    else if 400 ≤ st then .nextStyle
    else
      match body with
      | .invalid _ => .nextStyle
      | .empty => .retVal (.obj [])
      | .val j => .retVal j

def runIdStyles (t : Transport2) (pi : Nat) :
    List Nat → List (Nat × Nat) × Option JVal
  | [] => ([], none)
  | si :: rest =>
    match idStep (t pi si) with
    | .retVal j => ([(pi, si)], some j)
    | .breakPath => ([(pi, si)], none)
    | .nextStyle =>
      let r := runIdStyles t pi rest
      ((pi, si) :: r.1, r.2)

def runIdPaths (t : Transport2) (sis : List Nat) :
    List Nat → List (Nat × Nat) × Option JVal
  | [] => ([], none)
  | pi :: rest =>
    let r := runIdStyles t pi sis
    match r.2 with
    | some j => (r.1, some j)
    | none =>
      let r2 := runIdPaths t sis rest
      (r.1 ++ r2.1, r2.2)

/-- `get_course_by_id`: attempted (path, style) combinations and the
returned payload (`none` models the Python `return None`). -/
def get_course_by_id (t : Transport2) (np ns : Nat) :
    List (Nat × Nat) × Option JVal :=
  runIdPaths t (List.range ns) (List.range np)

/-! ## The health/account probing loop (golfapitest.py lines 241-259).
Status checks in source order: `404 → break`, `401/403 → continue`,
`resp.ok` (status < 400) sets the payload — the decoded JSON, or
`{"_raw": resp.text}` when decoding raises — and breaks; any other
status falls off the end of the `try` (no raise) and the style loop
continues.  After the style loop, probing stops as soon as the payload
variable is truthy. -/

inductive HealthOutcome where
  | breakPath
  | nextStyle
  | payload (j : JVal)

def healthStep (r : HResp) : HealthOutcome :=
  match r with
  | .exc => .nextStyle
  | .resp st body =>
    if st = 404 then .breakPath
    else if st = 401 ∨ st = 403 then .nextStyle
    else if st < 400 then
      .payload (match body with
        | .val j => j
        | .invalid text => .obj [("_raw", .str text)]
        | .empty => .obj [("_raw", .str "")])
    else .nextStyle

def runHealthStyles (t : Transport2) (pi : Nat) :
    List Nat → List (Nat × Nat) × Option JVal
  | [] => ([], none)
  | si :: rest =>
    match healthStep (t pi si) with
    | .payload j => ([(pi, si)], some j)
    | .breakPath => ([(pi, si)], none)
    | .nextStyle =>
      let r := runHealthStyles t pi rest
      ((pi, si) :: r.1, r.2)

/-- The path loop threads the `account_payload` variable (initially
`None`, i.e. `JVal.null`): a style-loop run that set it overwrites it,
and the loop stops once it is truthy. -/
def runHealthPaths (t : Transport2) (sis : List Nat) (acc : JVal) :
    List Nat → List (Nat × Nat) × JVal
  | [] => ([], acc)
  | pi :: rest =>
    let r := runHealthStyles t pi sis
    let acc2 := match r.2 with
      | some j => j
      | none => acc
    if truthy acc2 then (r.1, acc2)
    else
      let r2 := runHealthPaths t sis acc2 rest
      (r.1 ++ r2.1, r2.2)

/-- The account-lookup part of `health_check(email)`: attempted
(path, style) combinations and the final `account_payload`. -/
def health_account_probe (t : Transport2) (np ns : Nat) :
    List (Nat × Nat) × JVal :=
  runHealthPaths t (List.range ns) .null (List.range np)

/-! ## The grid session (`interactive_scorecard`, golf_cli.py 444-557) -/

/-- The scores store: `INSERT ... ON CONFLICT (game, player, hole) DO
UPDATE` keyed upserts, modelled as an association list keyed by
(player index, hole). -/
def upsert (store : List ((Nat × Nat) × Nat)) (k : Nat × Nat) (v : Nat) :
    List ((Nat × Nat) × Nat) :=
  match store with
  | [] => [(k, v)]
  | (k2, v2) :: rest =>
    if k2 = k then (k, v) :: rest else (k2, v2) :: upsert rest k v

/-- `SELECT strokes ... WHERE player ∧ hole`: the stored strokes for a
cell, if any (the store key is unique per cell). -/
def lookupScore (store : List ((Nat × Nat) × Nat)) (p h : Nat) : Option Nat :=
  match store with
  | [] => none
  | (k, v) :: rest => if k = (p, h) then some v else lookupScore rest p h

/-- The session state: the cursor dict `{"hole": 1, "player": 0}` plus
the backing scores store (the code holds no separate cache; every render
re-queries the store). -/
structure GridState where
  hole : Nat
  player : Nat
  scores : List ((Nat × Nat) × Nat)
deriving DecidableEq, Repr

/-- The key events bound in `interactive_scorecard`: the four arrows,
the digit keys, and `q`. -/
inductive Key where
  | left
  | right
  | up
  | down
  | digit (d : Nat)
  | quit
deriving DecidableEq, Repr

/-- One key event.  Arrows clamp exactly as the source:
`max(0, p-1)`, `min(len(player_ids)-1, p+1)`, `max(1, h-1)`,
`min(18, h+1)`.  Only the keys "1".."8" are bound to setters
(`for i in range(1, 9)`); any other digit key is unbound and leaves the
state unchanged.  `q` exits the application without touching state. -/
def gridStep (P : Nat) (s : GridState) : Key → GridState
  | .left => { s with player := s.player - 1 }
  | .right => { s with player := min (P - 1) (s.player + 1) }
  | .up => { s with hole := max 1 (s.hole - 1) }
  | .down => { s with hole := min 18 (s.hole + 1) }
  | .digit d =>
    if 1 ≤ d ∧ d ≤ 8 then
      { s with scores := upsert s.scores (s.player, s.hole) d }
    else s
  | .quit => s

/-- A whole session: the fold of key events from a state. -/
def gridRun (P : Nat) (s : GridState) (ks : List Key) : GridState :=
  ks.foldl (gridStep P) s

/-- The initial session state over a stored scorecard. -/
def gridInit (scores : List ((Nat × Nat) × Nat)) : GridState :=
  { hole := 1, player := 0, scores := scores }

/-! ## Aggregates (`show_scorecard`, golf_cli.py lines 403-413) -/

/-- `SELECT SUM(strokes) ... WHERE hole_number = ANY(holes)`: SQL `SUM`
is `NULL` when no row matches, else the sum of the matching rows. -/
def sum_for (store : List ((Nat × Nat) × Nat)) (p : Nat) (holes : List Nat) :
    Option Nat :=
  let vals := holes.filterMap (fun h => lookupScore store p h)
  if vals.isEmpty then none else some vals.sum

/-- The three aggregate rows: Front over holes 1-9, Back over 10-18,
Total over 1-18. -/
def frontHoles : List Nat := List.range' 1 9

def backHoles : List Nat := List.range' 10 9

def totalHoles : List Nat := List.range' 1 18

/-- `str(v) if v is not None else "-"`. -/
def displayAgg : Option Nat → String
  | some v => toString v
  | none => "-"

/-! ## Observers used to state properties -/

/-- Field access on a JSON value known to be an object (`r["k"]` /
`r.get("k")` on a produced record); `null` on non-objects. -/
def dget (j : JVal) (k : String) : JVal :=
  match j with
  | .obj fs => jget fs k
  | _ => .null

/-- The first record of a successful normalization result. -/
def okHead : Except Unit (List JVal) → JVal
  | .ok (r :: _) => r
  | _ => .null

/-- The number of records of a successful normalization result. -/
def okCount : Except Unit (List JVal) → Option Nat
  | .ok rs => some rs.length
  | .error _ => none

/-- Whether a JSON value is a non-empty string. -/
def nonEmptyStr : JVal → Bool
  | .str s => !s.isEmpty
  | _ => false

/-- A record is well-formed in the sense of the Normalized Course
invariant: `name` a non-empty string, `city`, `state`, `country`
present strings. -/
def goodRec (r : JVal) : Bool :=
  nonEmptyStr (dget r "name") && isStr (dget r "city") &&
    isStr (dget r "state") && isStr (dget r "country")

/-- Every record of a successful normalization result is well-formed. -/
def allGood : Except Unit (List JVal) → Bool
  | .ok rs => rs.all goodRec
  | .error _ => false

/-- A JSON value that is a string or absent/null. -/
def strOrNull : JVal → Bool
  | .str _ => true
  | .null => true
  | _ => false

/-- The field values a course element exposes under the names the
normalizer reads for `name`, `city`, `state` and `country` are strings
when present. -/
def cleanFields (fs : List (String × JVal)) : Bool :=
  (["name", "course_name", "city", "town", "state", "region",
    "country"] : List String).all (fun k => strOrNull (jget fs k))

/-- A course element that is an object with string-or-absent display
fields. -/
def cleanElem : JVal → Bool
  | .obj fs => cleanFields fs
  | _ => false

/-- The response a transport delivers at one attempted combination. -/
def respAt (t : Transport) (c : Nat × Nat × Nat) : HResp :=
  t c.1 c.2.1 c.2.2

/-- Whether a loop-body outcome is a success. -/
def isSucc : Outcome → Bool
  | .success _ => true
  | _ => false

/-- Strict lexicographic order on (path, parameter-name, auth-style)
combinations: path outermost, parameter-name middle, auth-style
innermost. -/
def comboLt (a b : Nat × Nat × Nat) : Prop :=
  a.1 < b.1 ∨ (a.1 = b.1 ∧ (a.2.1 < b.2.1 ∨ (a.2.1 = b.2.1 ∧ a.2.2 < b.2.2)))

/-- Relation between consecutive attempts: when the earlier attempt got
a 401 or 403 and a further auth style remains, the next attempt is the
same path and parameter-name with the next auth style. -/
def advancesAuth (t : Transport) (ns : Nat) (a b : Nat × Nat × Nat) : Prop :=
  (hstatus (respAt t a) = some 401 ∨ hstatus (respAt t a) = some 403) →
  a.2.2 + 1 < ns → b = (a.1, a.2.1, a.2.2 + 1)

/-- Every (path, parameter-name, auth-style) combination in the nested
lexicographic order of the probing loops. -/
def fullMatrix (np nq ns : Nat) : List (Nat × Nat × Nat) :=
  ((List.range np).map (fun pi =>
    ((List.range nq).map (fun qi =>
      (List.range ns).map (fun si => (pi, qi, si)))).flatten)).flatten

/-- The cursor addresses one of the P player columns and one of the 18
holes. -/
def cursorInRange (P : Nat) (s : GridState) : Prop :=
  s.player ≤ P - 1 ∧ 1 ≤ s.hole ∧ s.hole ≤ 18

instance (P : Nat) (s : GridState) : Decidable (cursorInRange P s) := by
  unfold cursorInRange; infer_instance

instance (a b : Nat × Nat × Nat) : Decidable (comboLt a b) := by
  unfold comboLt; infer_instance

instance (t : Transport) (ns : Nat) (a b : Nat × Nat × Nat) :
    Decidable (advancesAuth t ns a b) := by
  unfold advancesAuth; infer_instance

/-! # Theorems -/

/-! ## Helper lemmas: grid session -/

theorem gridStep_preserves (P : Nat) (s : GridState) (k : Key)
    (h : cursorInRange P s) : cursorInRange P (gridStep P s k) := by
  obtain ⟨h1, h2, h3⟩ := h
  cases k with
  | left =>
    exact ⟨by simp [gridStep]; omega, by simp [gridStep]; omega, by simp [gridStep]; omega⟩
  | right =>
    exact ⟨by simp [gridStep], by simp [gridStep]; omega, by simp [gridStep]; omega⟩
  | up =>
    exact ⟨by simp [gridStep]; omega, by simp [gridStep], by simp [gridStep]; omega⟩
  | down =>
    exact ⟨by simp [gridStep]; omega, by simp [gridStep], by simp [gridStep]⟩
  | digit d =>
    by_cases hd : 1 ≤ d ∧ d ≤ 8 <;>
      exact ⟨by simp [gridStep, hd]; omega, by simp [gridStep, hd]; omega,
        by simp [gridStep, hd]; omega⟩
  | quit => exact ⟨h1, h2, h3⟩

theorem gridRun_preserves (P : Nat) (ks : List Key) : ∀ s : GridState,
    cursorInRange P s → cursorInRange P (gridRun P s ks) := by
  induction ks with
  | nil => exact fun s h => h
  | cons k ks ih => exact fun s h => ih (gridStep P s k) (gridStep_preserves P s k h)

/-! ## Helper lemmas: score store -/

theorem lookupScore_upsert_self (st : List ((Nat × Nat) × Nat)) (k : Nat × Nat) (v : Nat) :
    lookupScore (upsert st k v) k.1 k.2 = some v := by
  induction st with
  | nil => simp [upsert, lookupScore]
  | cons e rest ih =>
    obtain ⟨k2, v2⟩ := e
    by_cases hk : k2 = k
    · subst hk; simp [upsert, lookupScore]
    · rw [upsert, if_neg hk, lookupScore, if_neg (by simpa using hk)]
      exact ih

theorem lookupScore_upsert_other (st : List ((Nat × Nat) × Nat)) (k : Nat × Nat)
    (v p h : Nat) (hne : (p, h) ≠ k) :
    lookupScore (upsert st k v) p h = lookupScore st p h := by
  have hne2 : k ≠ (p, h) := fun h2 => hne h2.symm
  induction st with
  | nil => simp [upsert, lookupScore, hne2]
  | cons e rest ih =>
    obtain ⟨k2, v2⟩ := e
    by_cases hk : k2 = k
    · subst hk
      rw [upsert, if_pos rfl, lookupScore, if_neg hne2, lookupScore, if_neg hne2]
    · rw [upsert, if_neg hk, lookupScore, lookupScore]
      by_cases he : k2 = (p, h)
      · rw [if_pos he, if_pos he]
      · rw [if_neg he, if_neg he]
        exact ih

/-! ## Helper lemmas: aggregate sums -/

theorem sum_filterMap_getD (f : Nat → Option Nat) (l : List Nat) :
    (l.filterMap f).sum = (l.map (fun h => (f h).getD 0)).sum := by
  induction l with
  | nil => rfl
  | cons a l ih => cases hf : f a <;> simp [List.filterMap_cons, hf, ih]

/-! ## Claim C10 -/

/-- Claim C10 (confirmed): the key-masking function returns, for every
key of length greater than 8, exactly the first 4 characters, one
ellipsis character, and the last 4 characters (a 9-character string);
for every key of length 8 or less it returns the key itself unmasked. -/
theorem C10_mask_key (key : String) :
    (key.length ≤ 8 → _mask_key key = key) ∧
    (8 < key.length →
      _mask_key key =
        String.mk (key.data.take 4 ++ '…' :: key.data.drop (key.data.length - 4)) ∧
      (_mask_key key).length = 9) := by
  constructor
  · intro h
    simp [_mask_key, h]
  · intro h
    have h2 : ¬ key.length ≤ 8 := by omega
    refine ⟨by simp [_mask_key, h2], ?_⟩
    have hd : key.data.length = key.length := rfl
    simp only [_mask_key, if_neg h2]
    show (key.data.take 4 ++ '…' :: key.data.drop (key.data.length - 4)).length = 9
    simp [List.length_append, List.length_take, List.length_drop]
    omega

/-- Witness for C10 at concrete keys: a 16-character key is masked to
first-4 + ellipsis + last-4, an 8-character key is shown in full. -/
theorem C10_mask_key_witness :
    _mask_key "golfapikey123456" = "golf…3456" ∧
    _mask_key "shortkey" = "shortkey" :=
  ⟨((C10_mask_key "golfapikey123456").2 (by decide)).1.trans (by decide),
   (C10_mask_key "shortkey").1 (by decide)⟩

/-! ## Claim C9 -/

/-- Claim C9 (confirmed): each aggregate (Front holes 1-9, Back holes
10-18, Total holes 1-18) is `NULL`/absent exactly when no contributing
cell is defined, and otherwise the sum of the defined cells (undefined
cells contribute nothing); concretely, a player with scores only on
holes 2 and 5 with values 4 and 5 has Front 9, an absent Back displayed
as "-", and Total 9. -/
theorem C9_aggregates :
    (∀ store p holes,
      (sum_for store p holes = none ↔ ∀ h ∈ holes, lookupScore store p h = none) ∧
      (∀ tot, sum_for store p holes = some tot →
        tot = (holes.map (fun h => (lookupScore store p h).getD 0)).sum)) ∧
    sum_for [((0, 2), 4), ((0, 5), 5)] 0 frontHoles = some 9 ∧
    sum_for [((0, 2), 4), ((0, 5), 5)] 0 backHoles = none ∧
    displayAgg (sum_for [((0, 2), 4), ((0, 5), 5)] 0 backHoles) = "-" ∧
    sum_for [((0, 2), 4), ((0, 5), 5)] 0 totalHoles = some 9 := by
  refine ⟨?_, by decide, by decide, by decide, by decide⟩
  intro store p holes
  constructor
  · by_cases he : (holes.filterMap (fun h => lookupScore store p h)).isEmpty <;>
      simp [sum_for, he] <;>
      simpa [List.isEmpty_iff, List.filterMap_eq_nil_iff] using he
  · intro tot ht
    by_cases he : (holes.filterMap (fun h => lookupScore store p h)).isEmpty
    · simp [sum_for, he] at ht
    · simp [sum_for, he] at ht
      rw [← ht, sum_filterMap_getD]

/-- Witness for C9: the absent-Back characterization applied at the
concrete two-score store. -/
theorem C9_aggregates_witness :
    sum_for [((0, 2), 4), ((0, 5), 5)] 0 backHoles = none :=
  ((C9_aggregates.1 [((0, 2), 4), ((0, 5), 5)] 0 backHoles).1).mpr (by decide)

/-! ## Claim C2 -/

/-- Claim C2 (corrected) counterexample: with the cursor at its initial
position (hole 1, column 0), pressing the digit 7 does not leave the
state unchanged — it records 7 strokes for player 0 on hole 1.  There
is no par column and no 3..6 par rule anywhere in the session. -/
theorem C2_counterexample :
    gridStep 1 (gridInit []) (.digit 7) ≠ gridInit [] ∧
    (gridStep 1 (gridInit []) (.digit 7)).scores = [((0, 1), 7)] := by
  decide

/-- Claim C2 as amended: the grid has no par column — every column is a
player column and digits never touch par.  A digit d with 1 ≤ d ≤ 8
(pressed on any column, including column 0) upserts d as the strokes of
(current player, current hole) in the store; any other digit key is
unbound and changes nothing; digits never move the cursor; the upsert
defines exactly the addressed cell and leaves every other cell
unchanged. -/
theorem C2_amended :
    (∀ P s d, 1 ≤ d → d ≤ 8 →
      gridStep P s (.digit d) =
        { s with scores := upsert s.scores (s.player, s.hole) d }) ∧
    (∀ P s d, d = 0 ∨ 8 < d → gridStep P s (.digit d) = s) ∧
    (∀ P s d, (gridStep P s (.digit d)).hole = s.hole ∧
      (gridStep P s (.digit d)).player = s.player) ∧
    (∀ st k v, lookupScore (upsert st k v) k.1 k.2 = some v) ∧
    (∀ st k v p h, (p, h) ≠ k →
      lookupScore (upsert st k v) p h = lookupScore st p h) := by
  refine ⟨?_, ?_, ?_, lookupScore_upsert_self, lookupScore_upsert_other⟩
  · intro P s d h1 h2
    simp [gridStep, h1, h2]
  · intro P s d h
    have : ¬ (1 ≤ d ∧ d ≤ 8) := by omega
    simp [gridStep, this]
  · intro P s d
    by_cases h : 1 ≤ d ∧ d ≤ 8 <;> simp [gridStep, h]

/-- Witness for C2 as amended: pressing 7 at the initial cursor stores
7 strokes for (player 0, hole 1); pressing 9 is ignored. -/
theorem C2_amended_witness :
    gridStep 1 (gridInit []) (.digit 7) =
      { hole := 1, player := 0, scores := [((0, 1), 7)] } ∧
    gridStep 1 (gridInit []) (.digit 9) = gridInit [] :=
  ⟨(C2_amended.1 1 (gridInit []) 7 (by decide) (by decide)).trans (by decide),
   C2_amended.2.1 1 (gridInit []) 9 (Or.inr (by decide))⟩

/-! ## Claim C6 -/

/-- Claim C6 (corrected) counterexample: with P = 2 player columns the
claim takes the column range to be 0..P and asserts a right move from
column P stays at column P; in the code the clamp is min(P-1, c+1), so
from column 2 a right move lands on column 1 ≠ 2. -/
theorem C6_counterexample :
    gridStep 2 { hole := 1, player := 2, scores := [] } .right =
      { hole := 1, player := 1, scores := [] } ∧ (1 : Nat) ≠ 2 := by
  decide

/-- Claim C6 as amended: the cursor ranges over columns 0..P-1 (there
is no par column) and holes 1..18; every key event preserves that
range, so no out-of-range cursor is reachable from the initial state;
and moves saturate: left stays at column 0, right stays at column P-1,
up stays at hole 1, down stays at hole 18. -/
theorem C6_amended :
    (∀ P s ks, cursorInRange P s → cursorInRange P (gridRun P s ks)) ∧
    (∀ P scores ks, cursorInRange P (gridRun P (gridInit scores) ks)) ∧
    (∀ P s, s.player = 0 → (gridStep P s .left).player = 0) ∧
    (∀ P s, s.player = P - 1 → (gridStep P s .right).player = P - 1) ∧
    (∀ P s, s.hole = 1 → (gridStep P s .up).hole = 1) ∧
    (∀ P s, s.hole = 18 → (gridStep P s .down).hole = 18) := by
  refine ⟨fun P s ks h => gridRun_preserves P ks s h,
    fun P scores ks =>
      gridRun_preserves P ks (gridInit scores) ⟨by simp [gridInit], by simp [gridInit], by simp [gridInit]⟩,
    ?_, ?_, ?_, ?_⟩
  · intro P s h
    simp [gridStep, h]
  · intro P s h
    simp [gridStep, h]
  · intro P s h
    simp [gridStep, h]
  · intro P s h
    simp [gridStep, h]

/-- Witness for C6 as amended: a concrete key sequence from the initial
state of a 2-player session stays in range, and a down press at hole 18
stays at hole 18. -/
theorem C6_amended_witness :
    cursorInRange 2 (gridRun 2 (gridInit []) [.left, .up, .right, .right, .down]) ∧
    (gridStep 2 { hole := 18, player := 1, scores := [] } .down).hole = 18 :=
  ⟨C6_amended.1 2 (gridInit []) [.left, .up, .right, .right, .down] (by decide),
   C6_amended.2.2.2.2.2 2 { hole := 18, player := 1, scores := [] } (by decide)⟩

/-! ## Helper lemmas: Python truthiness and the or-chains -/

theorem jor_pos (a b : JVal) (h : truthy a = true) : jor a b = a := by
  simp [jor, h]

theorem jor_neg (a b : JVal) (h : truthy a = false) : jor a b = b := by
  simp [jor, h]

theorem truthy_jor_right (a b : JVal) (hb : truthy b = true) :
    truthy (jor a b) = true := by
  by_cases h : truthy a
  · rw [jor_pos a b h]; exact h
  · rw [jor_neg a b (by simpa using h)]; exact hb

/-- A falsy two-step fallback chain ending in a string literal is that
literal. -/
theorem falsy_fallback (a b : JVal) (x : String)
    (h : truthy (jor a (jor b (.str x))) = false) :
    jor a (jor b (.str x)) = .str x := by
  by_cases ha : truthy a
  · rw [jor_pos _ _ ha] at h; exact absurd h (by simp [ha])
  · rw [jor_neg _ _ (by simpa using ha)] at h ⊢
    by_cases hb : truthy b
    · rw [jor_pos _ _ hb] at h; exact absurd h (by simp [hb])
    · rw [jor_neg _ _ (by simpa using hb)]

/-- Re-applying the same string-literal fallback to an or-chain value
changes nothing. -/
theorem jor_fallback_idem (a b : JVal) (x : String) :
    jor (jor a (jor b (.str x))) (.str x) = jor a (jor b (.str x)) := by
  by_cases h : truthy (jor a (jor b (.str x)))
  · exact jor_pos _ _ h
  · rw [falsy_fallback a b x (by simpa using h)]
    by_cases hx : truthy (.str x)
    · exact jor_pos _ _ hx
    · exact jor_neg _ _ (by simpa using hx)

/-- The one-step variant, for the `country` field. -/
theorem jor_fallback_idem1 (a : JVal) (x : String) :
    jor (jor a (.str x)) (.str x) = jor a (.str x) := by
  by_cases ha : truthy a
  · rw [jor_pos a _ ha, jor_pos a _ ha]
  · rw [jor_neg a _ (by simpa using ha)]
    by_cases hx : truthy (.str x)
    · exact jor_pos _ _ hx
    · exact jor_neg _ _ (by simpa using hx)

/-- A two-step fallback over string-or-null values ending in a
non-empty string literal is a non-empty string. -/
theorem nonEmptyStr_fallback (a b : JVal) (x : String) (hx : x.isEmpty = false)
    (ha : strOrNull a = true) (hb : strOrNull b = true) :
    nonEmptyStr (jor a (jor b (.str x))) = true := by
  cases a with
  | str s =>
    by_cases hs : s.isEmpty
    · rw [jor_neg _ _ (by simp [truthy, hs])]
      cases b with
      | str s2 =>
        by_cases hs2 : s2.isEmpty
        · rw [jor_neg _ _ (by simp [truthy, hs2])]; simp [nonEmptyStr, hx]
        · rw [jor_pos _ _ (by simp [truthy, hs2])]; simp [nonEmptyStr, hs2]
      | null => rw [jor_neg _ _ (by simp [truthy])]; simp [nonEmptyStr, hx]
      | bool b2 => simp [strOrNull] at hb
      | num n => simp [strOrNull] at hb
      | arr xs => simp [strOrNull] at hb
      | obj fs => simp [strOrNull] at hb
    · rw [jor_pos _ _ (by simp [truthy, hs])]
      simp [nonEmptyStr, hs]
  | null =>
    rw [jor_neg _ _ (by simp [truthy])]
    cases b with
    | str s2 =>
      by_cases hs2 : s2.isEmpty
      · rw [jor_neg _ _ (by simp [truthy, hs2])]; simp [nonEmptyStr, hx]
      · rw [jor_pos _ _ (by simp [truthy, hs2])]; simp [nonEmptyStr, hs2]
    | null => rw [jor_neg _ _ (by simp [truthy])]; simp [nonEmptyStr, hx]
    | bool b2 => simp [strOrNull] at hb
    | num n => simp [strOrNull] at hb
    | arr xs => simp [strOrNull] at hb
    | obj fs => simp [strOrNull] at hb
  | bool b2 => simp [strOrNull] at ha
  | num n => simp [strOrNull] at ha
  | arr xs => simp [strOrNull] at ha
  | obj fs => simp [strOrNull] at ha

/-- A two-step fallback over string-or-null values ending in a string
literal is a string. -/
theorem isStr_fallback (a b : JVal) (x : String)
    (ha : strOrNull a = true) (hb : strOrNull b = true) :
    isStr (jor a (jor b (.str x))) = true := by
  cases a with
  | str s =>
    by_cases hs : s.isEmpty
    · rw [jor_neg _ _ (by simp [truthy, hs])]
      cases b with
      | str s2 =>
        by_cases hs2 : s2.isEmpty
        · rw [jor_neg _ _ (by simp [truthy, hs2])]; rfl
        · rw [jor_pos _ _ (by simp [truthy, hs2])]; rfl
      | null => rw [jor_neg _ _ (by simp [truthy])]; rfl
      | bool b2 => simp [strOrNull] at hb
      | num n => simp [strOrNull] at hb
      | arr xs => simp [strOrNull] at hb
      | obj fs => simp [strOrNull] at hb
    · rw [jor_pos _ _ (by simp [truthy, hs])]; rfl
  | null =>
    rw [jor_neg _ _ (by simp [truthy])]
    cases b with
    | str s2 =>
      by_cases hs2 : s2.isEmpty
      · rw [jor_neg _ _ (by simp [truthy, hs2])]; rfl
      · rw [jor_pos _ _ (by simp [truthy, hs2])]; rfl
    | null => rw [jor_neg _ _ (by simp [truthy])]; rfl
    | bool b2 => simp [strOrNull] at hb
    | num n => simp [strOrNull] at hb
    | arr xs => simp [strOrNull] at hb
    | obj fs => simp [strOrNull] at hb
  | bool b2 => simp [strOrNull] at ha
  | num n => simp [strOrNull] at ha
  | arr xs => simp [strOrNull] at ha
  | obj fs => simp [strOrNull] at ha

/-- The one-step variant, for the `country` field. -/
theorem isStr_fallback1 (a : JVal) (x : String) (ha : strOrNull a = true) :
    isStr (jor a (.str x)) = true := by
  cases a with
  | str s =>
    by_cases hs : s.isEmpty
    · rw [jor_neg _ _ (by simp [truthy, hs])]; rfl
    · rw [jor_pos _ _ (by simp [truthy, hs])]; rfl
  | null => rw [jor_neg _ _ (by simp [truthy])]; rfl
  | bool b2 => simp [strOrNull] at ha
  | num n => simp [strOrNull] at ha
  | arr xs => simp [strOrNull] at ha
  | obj fs => simp [strOrNull] at ha

/-! ## Helper lemmas: normalization of clean elements -/

theorem normalize_one_clean (fs : List (String × JVal)) (h : cleanFields fs = true) :
    ∃ r, normalize_one (.obj fs) = .ok r ∧ goodRec r = true := by
  simp only [cleanFields, List.all_cons, List.all_nil, Bool.and_eq_true,
    and_true] at h
  obtain ⟨hn, hcn, hc, ht, hs, hr, hk⟩ := h
  refine ⟨_, rfl, ?_⟩
  show (nonEmptyStr (jor (jget fs "name")
      (jor (jget fs "course_name") (.str "(Unnamed Course)"))) &&
    isStr (jor (jget fs "city") (jor (jget fs "town") (.str ""))) &&
    isStr (jor (jget fs "state") (jor (jget fs "region") (.str ""))) &&
    isStr (jor (jget fs "country") (.str ""))) = true
  rw [nonEmptyStr_fallback _ _ _ (by decide) hn hcn, isStr_fallback _ _ _ hc ht,
    isStr_fallback _ _ _ hs hr, isStr_fallback1 _ _ hk]
  rfl

theorem mapE_clean (xs : List JVal) (h : xs.all cleanElem = true) :
    ∃ rs, mapE normalize_one xs = .ok rs ∧ rs.length = xs.length ∧
      rs.all goodRec = true := by
  induction xs with
  | nil => exact ⟨[], rfl, rfl, rfl⟩
  | cons x xs ih =>
    simp only [List.all_cons, Bool.and_eq_true] at h
    obtain ⟨hx, hxs⟩ := h
    obtain ⟨rs, hrs, hlen, hgood⟩ := ih hxs
    cases x with
    | obj fs =>
      obtain ⟨r, hr, hg⟩ := normalize_one_clean fs (by simpa [cleanElem] using hx)
      refine ⟨r :: rs, ?_, by simp [hlen], by simp [List.all_cons, hg, hgood]⟩
      simp [mapE, hr, hrs]
    | null => simp [cleanElem] at hx
    | bool b => simp [cleanElem] at hx
    | num n => simp [cleanElem] at hx
    | str s => simp [cleanElem] at hx
    | arr ys => simp [cleanElem] at hx

/-! ## Claim C5 -/

/-- Claim C5 (corrected) counterexample: a bare-list body whose single
element carries a numeric `name` is normalized to a record whose `name`
field is the number 5 — a value that is not a string at all, let alone
a non-empty one — because the source's or-chain keeps any truthy value
regardless of type. -/
theorem C5_counterexample :
    _normalize_courses (.arr [.obj [("name", .num 5)]]) =
      .ok [.obj [("id", .null), ("name", .num 5), ("city", .str ""),
        ("state", .str ""), ("country", .str ""),
        ("_raw", .obj [("name", .num 5)])]] ∧
    isStr (dget (okHead (_normalize_courses (.arr [.obj [("name", .num 5)]]))) "name")
      = false ∧
    nonEmptyStr (dget (okHead (_normalize_courses (.arr [.obj [("name", .num 5)]]))) "name")
      = false :=
  ⟨rfl, rfl, rfl⟩

/-- Claim C5 as amended: for every body that is a bare list of objects
whose name/course_name/city/town/state/region/country fields are
strings when present (or an object exposing such a list under the
`courses` key), normalization returns one record per element, every
record's `name` is a non-empty string, its `city`, `state` and
`country` are present strings defaulting to the empty string, and an
element with no usable name yields the placeholder "(Unnamed Course)";
on elements with non-string field values the name invariant can fail
(see the counterexample). -/
theorem C5_amended (xs : List JVal) (h : xs.all cleanElem = true) :
    okCount (_normalize_courses (.arr xs)) = some xs.length ∧
    allGood (_normalize_courses (.arr xs)) = true ∧
    _normalize_courses (.obj [("courses", .arr xs)]) = _normalize_courses (.arr xs) ∧
    (∀ fs r, normalize_one (.obj fs) = .ok r → jget fs "name" = .null →
      jget fs "course_name" = .null → dget r "name" = .str "(Unnamed Course)") := by
  obtain ⟨rs, hrs, hlen, hgood⟩ := mapE_clean xs h
  have hnc : _normalize_courses (.arr xs) = .ok rs := hrs
  refine ⟨by rw [hnc, okCount, hlen], by rw [hnc]; exact hgood, ?_, ?_⟩
  · cases xs with
    | nil => rfl
    | cons y ys => rfl
  · intro fs r hr hn hcn
    have h2 := hr
    simp only [normalize_one, Except.ok.injEq] at h2
    subst h2
    show jor (jget fs "name") (jor (jget fs "course_name") (.str "(Unnamed Course)"))
      = .str "(Unnamed Course)"
    rw [hn, hcn]
    rfl

/-- Witness for C5 as amended at a concrete two-element body: one named
course and one empty object, yielding two well-formed records. -/
theorem C5_amended_witness :
    okCount (_normalize_courses
      (.arr [.obj [("name", .str "Pebble Beach")], .obj []])) = some 2 ∧
    allGood (_normalize_courses
      (.arr [.obj [("name", .str "Pebble Beach")], .obj []])) = true :=
  ⟨(C5_amended [.obj [("name", .str "Pebble Beach")], .obj []] (by decide)).1,
   (C5_amended [.obj [("name", .str "Pebble Beach")], .obj []] (by decide)).2.1⟩

/-! ## Claim C7 -/

/-- Claim C7 (corrected) counterexample: the record normalized from the
empty object, fed back through normalization, is not returned
unchanged: its `_raw` field becomes the record itself instead of the
original element, so the output differs from the input record. -/
theorem C7_counterexample :
    _normalize_courses (.arr [.obj []]) =
      .ok [.obj [("id", .null), ("name", .str "(Unnamed Course)"),
        ("city", .str ""), ("state", .str ""), ("country", .str ""),
        ("_raw", .obj [])]] ∧
    _normalize_courses (.arr [.obj [("id", .null), ("name", .str "(Unnamed Course)"),
        ("city", .str ""), ("state", .str ""), ("country", .str ""),
        ("_raw", .obj [])]]) =
      .ok [.obj [("id", .null), ("name", .str "(Unnamed Course)"),
        ("city", .str ""), ("state", .str ""), ("country", .str ""),
        ("_raw", .obj [("id", .null), ("name", .str "(Unnamed Course)"),
          ("city", .str ""), ("state", .str ""), ("country", .str ""),
          ("_raw", .obj [])])]] ∧
    (JVal.obj [("id", .null), ("name", .str "(Unnamed Course)"),
        ("city", .str ""), ("state", .str ""), ("country", .str ""),
        ("_raw", .obj [("id", .null), ("name", .str "(Unnamed Course)"),
          ("city", .str ""), ("state", .str ""), ("country", .str ""),
          ("_raw", .obj [])])]) ≠
      (JVal.obj [("id", .null), ("name", .str "(Unnamed Course)"),
        ("city", .str ""), ("state", .str ""), ("country", .str ""),
        ("_raw", .obj [])]) :=
  ⟨rfl, rfl, fun h =>
    absurd (congrArg (fun j => objSize (dget j "_raw")) h) (by decide)⟩

/-- Claim C7 as amended: feeding a normalized record back through
normalization preserves its `name`, `city`, `state` and `country`
fields, preserves `id` whenever it is truthy or null (every id the
normalizer produces except degenerate falsy non-null values such as the
empty string), and replaces `_raw` by the fed-back record itself — so
re-normalization is the identity on all fields except `_raw`, and full
record equality fails. -/
theorem C7_amended (fs : List (String × JVal)) (r : JVal)
    (h : normalize_one (.obj fs) = .ok r)
    (hid : truthy (dget r "id") = true ∨ dget r "id" = .null) :
    okCount (_normalize_courses (.arr [r])) = some 1 ∧
    dget (okHead (_normalize_courses (.arr [r]))) "id" = dget r "id" ∧
    dget (okHead (_normalize_courses (.arr [r]))) "name" = dget r "name" ∧
    dget (okHead (_normalize_courses (.arr [r]))) "city" = dget r "city" ∧
    dget (okHead (_normalize_courses (.arr [r]))) "state" = dget r "state" ∧
    dget (okHead (_normalize_courses (.arr [r]))) "country" = dget r "country" ∧
    dget (okHead (_normalize_courses (.arr [r]))) "_raw" = r := by
  have h2 := h
  simp only [normalize_one, Except.ok.injEq] at h2
  subst h2
  refine ⟨rfl, ?_, ?_, ?_, ?_, ?_, rfl⟩
  · show jor (jor (jget fs "id") (jor (jget fs "_id") (jget fs "course_id")))
      JVal.null = jor (jget fs "id") (jor (jget fs "_id") (jget fs "course_id"))
    rcases hid with hid | hid
    · exact jor_pos _ _ hid
    · have hI : jor (jget fs "id") (jor (jget fs "_id") (jget fs "course_id"))
        = JVal.null := hid
      rw [hI]
      rfl
  · exact jor_pos _ _ (truthy_jor_right _ _ (truthy_jor_right _ _ rfl))
  · exact jor_fallback_idem _ _ _
  · exact jor_fallback_idem _ _ _
  · exact jor_fallback_idem1 _ _

/-- Witness for C7 as amended at the record normalized from the empty
object: its non-raw fields survive re-normalization and its `_raw`
becomes the record itself. -/
theorem C7_amended_witness :
    dget (okHead (_normalize_courses (.arr [.obj [("id", .null),
      ("name", .str "(Unnamed Course)"), ("city", .str ""), ("state", .str ""),
      ("country", .str ""), ("_raw", .obj [])]]))) "name" =
      dget (.obj [("id", .null), ("name", .str "(Unnamed Course)"),
        ("city", .str ""), ("state", .str ""), ("country", .str ""),
        ("_raw", .obj [])]) "name" ∧
    dget (okHead (_normalize_courses (.arr [.obj [("id", .null),
      ("name", .str "(Unnamed Course)"), ("city", .str ""), ("state", .str ""),
      ("country", .str ""), ("_raw", .obj [])]]))) "_raw" =
      .obj [("id", .null), ("name", .str "(Unnamed Course)"), ("city", .str ""),
        ("state", .str ""), ("country", .str ""), ("_raw", .obj [])] :=
  ⟨(C7_amended [] _ rfl (Or.inr rfl)).2.2.1,
   (C7_amended [] _ rfl (Or.inr rfl)).2.2.2.2.2.2⟩

/-! ## Helper lemmas: classifying one search response -/

theorem searchStep_auth (r : HResp)
    (h : hstatus r = some 401 ∨ hstatus r = some 403) :
    searchStep r = .nextStyle := by
  cases r with
  | exc => rfl
  | resp st body =>
    have hst : st = 401 ∨ st = 403 := by
      rcases h with h | h
      · exact Or.inl (by simpa [hstatus] using h)
      · exact Or.inr (by simpa [hstatus] using h)
    simp only [searchStep]
    rw [if_pos hst]

theorem searchStep_404 (r : HResp) (h : hstatus r = some 404) :
    searchStep r = .nextParam := by
  cases r with
  | exc => simp [hstatus] at h
  | resp st body =>
    have hst : st = 404 := by simpa [hstatus] using h
    subst hst
    rfl

/-! ## Helper lemmas: structure of the auth-style loop trace -/

theorem runStyles_sublist (t : Transport) (pi qi : Nat) (sis : List Nat) :
    List.Sublist (runStyles t pi qi sis).1 (sis.map (fun si => (pi, qi, si))) := by
  induction sis with
  | nil => simp [runStyles]
  | cons si rest ih =>
    cases hs : searchStep (t pi qi si) with
    | success rs =>
      simp only [runStyles, hs]
      exact List.Sublist.cons₂ _ (List.nil_sublist _)
    | crash =>
      simp only [runStyles, hs]
      exact List.Sublist.cons₂ _ (List.nil_sublist _)
    | nextParam =>
      simp only [runStyles, hs]
      exact List.Sublist.cons₂ _ (List.nil_sublist _)
    | nextStyle =>
      simp only [runStyles, hs]
      exact List.Sublist.cons₂ _ ih

theorem runStyles_trace_take (t : Transport) (pi qi : Nat) (sis : List Nat) :
    ∃ n, (runStyles t pi qi sis).1 = (sis.take n).map (fun si => (pi, qi, si)) := by
  induction sis with
  | nil => exact ⟨0, rfl⟩
  | cons si rest ih =>
    cases hs : searchStep (t pi qi si) with
    | success rs => exact ⟨1, by simp [runStyles, hs]⟩
    | crash => exact ⟨1, by simp [runStyles, hs]⟩
    | nextParam => exact ⟨1, by simp [runStyles, hs]⟩
    | nextStyle =>
      obtain ⟨n, hn⟩ := ih
      exact ⟨n + 1, by simp [runStyles, hs, hn]⟩

theorem runStyles_fellThrough (t : Transport) (pi qi : Nat) (sis : List Nat)
    (h : (runStyles t pi qi sis).2 = .fellThrough) :
    (runStyles t pi qi sis).1 = sis.map (fun si => (pi, qi, si)) := by
  induction sis with
  | nil => rfl
  | cons si rest ih =>
    cases hs : searchStep (t pi qi si) with
    | success rs => rw [runStyles] at h; simp [hs] at h
    | crash => rw [runStyles] at h; simp [hs] at h
    | nextParam => rw [runStyles] at h; simp [hs] at h
    | nextStyle =>
      rw [runStyles] at h ⊢
      simp only [hs] at h ⊢
      simp only [List.map_cons, List.cons.injEq, true_and]
      exact ih h

theorem runStyles_dropLast_nextStyle (t : Transport) (pi qi : Nat) (sis : List Nat) :
    ∀ c ∈ (runStyles t pi qi sis).1.dropLast, searchStep (respAt t c) = .nextStyle := by
  induction sis with
  | nil => intro c hc; simp [runStyles] at hc
  | cons si rest ih =>
    intro c hc
    cases hs : searchStep (t pi qi si) with
    | success rs => simp [runStyles, hs] at hc
    | crash => simp [runStyles, hs] at hc
    | nextParam => simp [runStyles, hs] at hc
    | nextStyle =>
      simp only [runStyles, hs] at hc
      have ih2 := ih
      generalize htr : (runStyles t pi qi rest).1 = tr at hc ih2
      cases tr with
      | nil => simp at hc
      | cons c2 tl =>
        rw [List.dropLast_cons₂, List.mem_cons] at hc
        rcases hc with rfl | hc
        · exact hs
        · exact ih2 c hc

theorem runStyles_nonsucc (t : Transport) (pi qi : Nat) (sis : List Nat)
    (h : (runStyles t pi qi sis).2 = .broke ∨ (runStyles t pi qi sis).2 = .fellThrough) :
    ∀ c ∈ (runStyles t pi qi sis).1, isSucc (searchStep (respAt t c)) = false := by
  induction sis with
  | nil => intro c hc; simp [runStyles] at hc
  | cons si rest ih =>
    intro c hc
    cases hs : searchStep (t pi qi si) with
    | success rs =>
      rcases h with h | h <;> rw [runStyles] at h <;> simp [hs] at h
    | crash =>
      rcases h with h | h <;> rw [runStyles] at h <;> simp [hs] at h
    | nextParam =>
      simp only [runStyles, hs] at hc
      simp at hc
      subst hc
      simp [respAt, hs, isSucc]
    | nextStyle =>
      simp only [runStyles, hs] at hc
      rw [List.mem_cons] at hc
      rcases hc with rfl | hc
      · simp [respAt, hs, isSucc]
      · refine ih ?_ c hc
        rcases h with h | h <;> rw [runStyles] at h <;> simp only [hs] at h
        · exact Or.inl h
        · exact Or.inr h

theorem runStyles_last_broke (t : Transport) (pi qi : Nat) (sis : List Nat)
    (h : (runStyles t pi qi sis).2 = .broke) :
    ∃ c, (runStyles t pi qi sis).1.getLast? = some c ∧
      searchStep (respAt t c) = .nextParam := by
  induction sis with
  | nil => rw [runStyles] at h; simp at h
  | cons si rest ih =>
    cases hs : searchStep (t pi qi si) with
    | success rs => rw [runStyles] at h; simp [hs] at h
    | crash => rw [runStyles] at h; simp [hs] at h
    | nextParam =>
      refine ⟨(pi, qi, si), ?_, by simpa [respAt] using hs⟩
      simp [runStyles, hs]
    | nextStyle =>
      rw [runStyles] at h
      simp only [hs] at h
      obtain ⟨c, hc, hcs⟩ := ih h
      refine ⟨c, ?_, hcs⟩
      simp only [runStyles, hs]
      rcases htr : (runStyles t pi qi rest).1 with _ | ⟨c2, tl⟩
      · rw [htr] at hc; simp at hc
      · rw [htr] at hc
        rw [show (pi, qi, si) :: c2 :: tl = [(pi, qi, si)] ++ (c2 :: tl) from rfl,
          List.getLast?_append_of_ne_nil _ (by simp)]
        exact hc

theorem runStyles_all_nextStyle (t : Transport) (pi qi : Nat) (sis : List Nat)
    (h : ∀ si, searchStep (t pi qi si) = .nextStyle) :
    runStyles t pi qi sis = (sis.map (fun si => (pi, qi, si)), .fellThrough) := by
  induction sis with
  | nil => rfl
  | cons si rest ih => simp [runStyles, h si, ih]

theorem runStyles_no_crash (t : Transport) (pi qi : Nat) (sis : List Nat)
    (h : ∀ si, searchStep (t pi qi si) ≠ .crash) :
    (runStyles t pi qi sis).2 ≠ .crash := by
  induction sis with
  | nil => simp [runStyles]
  | cons si rest ih =>
    cases hs : searchStep (t pi qi si) with
    | success rs => simp [runStyles, hs]
    | crash => exact absurd hs (h si)
    | nextParam => simp [runStyles, hs]
    | nextStyle => simpa [runStyles, hs] using ih

theorem runStyles_last_success (t : Transport) (pi qi : Nat) (sis : List Nat)
    (rs : List JVal) (h : (runStyles t pi qi sis).2 = .success rs) :
    ∃ c, (runStyles t pi qi sis).1.getLast? = some c ∧
      searchStep (respAt t c) = .success rs := by
  induction sis with
  | nil => rw [runStyles] at h; simp at h
  | cons si rest ih =>
    cases hs : searchStep (t pi qi si) with
    | success rs2 =>
      rw [runStyles] at h
      simp only [hs, StyleRes.success.injEq] at h
      subst h
      refine ⟨(pi, qi, si), ?_, by simpa [respAt] using hs⟩
      simp [runStyles, hs]
    | crash => rw [runStyles] at h; simp [hs] at h
    | nextParam => rw [runStyles] at h; simp [hs] at h
    | nextStyle =>
      rw [runStyles] at h
      simp only [hs] at h
      obtain ⟨c, hc, hcs⟩ := ih h
      refine ⟨c, ?_, hcs⟩
      simp only [runStyles, hs]
      rcases htr : (runStyles t pi qi rest).1 with _ | ⟨c2, tl⟩
      · rw [htr] at hc; simp at hc
      · rw [htr] at hc
        rw [show (pi, qi, si) :: c2 :: tl = [(pi, qi, si)] ++ (c2 :: tl) from rfl,
          List.getLast?_append_of_ne_nil _ (by simp)]
        exact hc

/-! ## Helper lemmas: structure of the parameter-name loop trace -/

theorem runParams_sublist (t : Transport) (pi : Nat) (sis qis : List Nat) :
    List.Sublist (runParams t pi sis qis).1
      ((qis.map (fun qi => sis.map (fun si => (pi, qi, si)))).flatten) := by
  induction qis with
  | nil => simp [runParams]
  | cons qi rest ih =>
    cases hr : (runStyles t pi qi sis).2 with
    | success rs =>
      simp only [runParams, hr, List.map_cons, List.flatten_cons]
      exact (runStyles_sublist t pi qi sis).trans (List.sublist_append_left _ _)
    | crash =>
      simp only [runParams, hr, List.map_cons, List.flatten_cons]
      exact (runStyles_sublist t pi qi sis).trans (List.sublist_append_left _ _)
    | broke =>
      simp only [runParams, hr, List.map_cons, List.flatten_cons]
      exact List.Sublist.append (runStyles_sublist t pi qi sis) ih
    | fellThrough =>
      simp only [runParams, hr, List.map_cons, List.flatten_cons]
      exact List.Sublist.append (runStyles_sublist t pi qi sis) ih

theorem runParams_nonsucc (t : Transport) (pi : Nat) (sis : List Nat)
    (qis : List Nat) (h : (runParams t pi sis qis).2 = .fellThrough) :
    ∀ c ∈ (runParams t pi sis qis).1, isSucc (searchStep (respAt t c)) = false := by
  induction qis with
  | nil => intro c hc; simp [runParams] at hc
  | cons qi rest ih =>
    intro c hc
    cases hr : (runStyles t pi qi sis).2 with
    | success rs => rw [runParams] at h; simp [hr] at h
    | crash => rw [runParams] at h; simp [hr] at h
    | broke =>
      rw [runParams] at h hc
      simp only [hr] at h hc
      rcases List.mem_append.mp hc with hc | hc
      · exact runStyles_nonsucc t pi qi sis (Or.inl hr) c hc
      · exact ih h c hc
    | fellThrough =>
      rw [runParams] at h hc
      simp only [hr] at h hc
      rcases List.mem_append.mp hc with hc | hc
      · exact runStyles_nonsucc t pi qi sis (Or.inr hr) c hc
      · exact ih h c hc

theorem runParams_dropLast_nonsucc (t : Transport) (pi : Nat) (sis : List Nat)
    (qis : List Nat) :
    ∀ c ∈ (runParams t pi sis qis).1.dropLast,
      isSucc (searchStep (respAt t c)) = false := by
  induction qis with
  | nil => intro c hc; simp [runParams] at hc
  | cons qi rest ih =>
    intro c hc
    cases hr : (runStyles t pi qi sis).2 with
    | success rs =>
      simp only [runParams, hr] at hc
      rw [runStyles_dropLast_nextStyle t pi qi sis c hc]
      rfl
    | crash =>
      simp only [runParams, hr] at hc
      rw [runStyles_dropLast_nextStyle t pi qi sis c hc]
      rfl
    | broke =>
      simp only [runParams, hr] at hc
      have ih2 := ih
      generalize hB : (runParams t pi sis rest).1 = B at hc ih2
      cases B with
      | nil =>
        rw [List.append_nil] at hc
        rw [runStyles_dropLast_nextStyle t pi qi sis c hc]
        rfl
      | cons b tl =>
        rw [List.dropLast_append_of_ne_nil _ (by simp)] at hc
        rcases List.mem_append.mp hc with hc | hc
        · exact runStyles_nonsucc t pi qi sis (Or.inl hr) c hc
        · exact ih2 c hc
    | fellThrough =>
      simp only [runParams, hr] at hc
      have ih2 := ih
      generalize hB : (runParams t pi sis rest).1 = B at hc ih2
      cases B with
      | nil =>
        rw [List.append_nil] at hc
        rw [runStyles_dropLast_nextStyle t pi qi sis c hc]
        rfl
      | cons b tl =>
        rw [List.dropLast_append_of_ne_nil _ (by simp)] at hc
        rcases List.mem_append.mp hc with hc | hc
        · exact runStyles_nonsucc t pi qi sis (Or.inr hr) c hc
        · exact ih2 c hc

theorem runParams_last_success (t : Transport) (pi : Nat) (sis : List Nat)
    (qis : List Nat) (rs : List JVal)
    (h : (runParams t pi sis qis).2 = .success rs) :
    ∃ c, (runParams t pi sis qis).1.getLast? = some c ∧
      searchStep (respAt t c) = .success rs := by
  induction qis with
  | nil => rw [runParams] at h; simp at h
  | cons qi rest ih =>
    cases hr : (runStyles t pi qi sis).2 with
    | success rs2 =>
      rw [runParams] at h
      simp only [hr, LoopRes.success.injEq] at h
      subst h
      obtain ⟨c, hc, hcs⟩ := runStyles_last_success t pi qi sis rs2 hr
      refine ⟨c, ?_, hcs⟩
      simp only [runParams, hr]
      exact hc
    | crash => rw [runParams] at h; simp [hr] at h
    | broke =>
      rw [runParams] at h
      simp only [hr] at h
      obtain ⟨c, hc, hcs⟩ := ih h
      refine ⟨c, ?_, hcs⟩
      simp only [runParams, hr]
      have hne : (runParams t pi sis rest).1 ≠ [] := by
        intro hB; rw [hB] at hc; simp at hc
      rw [List.getLast?_append_of_ne_nil _ hne]
      exact hc
    | fellThrough =>
      rw [runParams] at h
      simp only [hr] at h
      obtain ⟨c, hc, hcs⟩ := ih h
      refine ⟨c, ?_, hcs⟩
      simp only [runParams, hr]
      have hne : (runParams t pi sis rest).1 ≠ [] := by
        intro hB; rw [hB] at hc; simp at hc
      rw [List.getLast?_append_of_ne_nil _ hne]
      exact hc

theorem runParams_all_nextStyle (t : Transport) (pi : Nat) (sis qis : List Nat)
    (h : ∀ qi si, searchStep (t pi qi si) = .nextStyle) :
    runParams t pi sis qis =
      ((qis.map (fun qi => sis.map (fun si => (pi, qi, si)))).flatten,
        .fellThrough) := by
  induction qis with
  | nil => rfl
  | cons qi rest ih =>
    simp [runParams, runStyles_all_nextStyle t pi qi sis (h qi), ih]

theorem runParams_no_crash (t : Transport) (pi : Nat) (sis qis : List Nat)
    (h : ∀ qi si, searchStep (t pi qi si) ≠ .crash) :
    (runParams t pi sis qis).2 ≠ .crash := by
  induction qis with
  | nil => simp [runParams]
  | cons qi rest ih =>
    cases hr : (runStyles t pi qi sis).2 with
    | success rs => simp [runParams, hr]
    | crash => exact absurd hr (runStyles_no_crash t pi qi sis (h qi))
    | broke => simpa [runParams, hr] using ih
    | fellThrough => simpa [runParams, hr] using ih

theorem runParams_all404 (t : Transport) (pi s0 : Nat) (srest qis : List Nat)
    (h : ∀ qi, searchStep (t pi qi s0) = .nextParam) :
    runParams t pi (s0 :: srest) qis =
      (qis.map (fun qi => (pi, qi, s0)), .fellThrough) := by
  induction qis with
  | nil => rfl
  | cons qi rest ih =>
    have hrs : runStyles t pi qi (s0 :: srest) = ([(pi, qi, s0)], .broke) := by
      simp [runStyles, h qi]
    simp [runParams, hrs, ih]

/-! ## Helper lemmas: structure of the path loop trace -/

theorem runPaths_sublist (t : Transport) (qis sis pis : List Nat) :
    List.Sublist (runPaths t qis sis pis).1
      ((pis.map (fun pi =>
        ((qis.map (fun qi => sis.map (fun si => (pi, qi, si)))).flatten))).flatten) := by
  induction pis with
  | nil => simp [runPaths]
  | cons pi rest ih =>
    cases hr : (runParams t pi sis qis).2 with
    | success rs =>
      simp only [runPaths, hr, List.map_cons, List.flatten_cons]
      exact (runParams_sublist t pi sis qis).trans (List.sublist_append_left _ _)
    | crash =>
      simp only [runPaths, hr, List.map_cons, List.flatten_cons]
      exact (runParams_sublist t pi sis qis).trans (List.sublist_append_left _ _)
    | fellThrough =>
      simp only [runPaths, hr, List.map_cons, List.flatten_cons]
      exact List.Sublist.append (runParams_sublist t pi sis qis) ih

theorem runPaths_dropLast_nonsucc (t : Transport) (qis sis pis : List Nat) :
    ∀ c ∈ (runPaths t qis sis pis).1.dropLast,
      isSucc (searchStep (respAt t c)) = false := by
  induction pis with
  | nil => intro c hc; simp [runPaths] at hc
  | cons pi rest ih =>
    intro c hc
    cases hr : (runParams t pi sis qis).2 with
    | success rs =>
      simp only [runPaths, hr] at hc
      exact runParams_dropLast_nonsucc t pi sis qis c hc
    | crash =>
      simp only [runPaths, hr] at hc
      exact runParams_dropLast_nonsucc t pi sis qis c hc
    | fellThrough =>
      simp only [runPaths, hr] at hc
      have ih2 := ih
      generalize hB : (runPaths t qis sis rest).1 = B at hc ih2
      cases B with
      | nil =>
        rw [List.append_nil] at hc
        exact runParams_dropLast_nonsucc t pi sis qis c hc
      | cons b tl =>
        rw [List.dropLast_append_of_ne_nil _ (by simp)] at hc
        rcases List.mem_append.mp hc with hc | hc
        · exact runParams_nonsucc t pi sis qis hr c hc
        · exact ih2 c hc

theorem runPaths_last_success (t : Transport) (qis sis pis : List Nat)
    (rs : List JVal) (h : (runPaths t qis sis pis).2 = .success rs) :
    ∃ c, (runPaths t qis sis pis).1.getLast? = some c ∧
      searchStep (respAt t c) = .success rs := by
  induction pis with
  | nil => rw [runPaths] at h; simp at h
  | cons pi rest ih =>
    cases hr : (runParams t pi sis qis).2 with
    | success rs2 =>
      rw [runPaths] at h
      simp only [hr, LoopRes.success.injEq] at h
      subst h
      obtain ⟨c, hc, hcs⟩ := runParams_last_success t pi sis qis rs2 hr
      refine ⟨c, ?_, hcs⟩
      simp only [runPaths, hr]
      exact hc
    | crash => rw [runPaths] at h; simp [hr] at h
    | fellThrough =>
      rw [runPaths] at h
      simp only [hr] at h
      obtain ⟨c, hc, hcs⟩ := ih h
      refine ⟨c, ?_, hcs⟩
      simp only [runPaths, hr]
      have hne : (runPaths t qis sis rest).1 ≠ [] := by
        intro hB; rw [hB] at hc; simp at hc
      rw [List.getLast?_append_of_ne_nil _ hne]
      exact hc

theorem runPaths_all_nextStyle (t : Transport) (qis sis pis : List Nat)
    (h : ∀ pi qi si, searchStep (t pi qi si) = .nextStyle) :
    runPaths t qis sis pis =
      ((pis.map (fun pi =>
        ((qis.map (fun qi => sis.map (fun si => (pi, qi, si)))).flatten))).flatten,
        .fellThrough) := by
  induction pis with
  | nil => rfl
  | cons pi rest ih =>
    simp [runPaths, runParams_all_nextStyle t pi sis qis (h pi), ih]

theorem runPaths_no_crash (t : Transport) (qis sis pis : List Nat)
    (h : ∀ pi qi si, searchStep (t pi qi si) ≠ .crash) :
    (runPaths t qis sis pis).2 ≠ .crash := by
  induction pis with
  | nil => simp [runPaths]
  | cons pi rest ih =>
    cases hr : (runParams t pi sis qis).2 with
    | success rs => simp [runPaths, hr]
    | crash => exact absurd hr (runParams_no_crash t pi sis qis (h pi))
    | fellThrough => simpa [runPaths, hr] using ih

theorem runPaths_all404 (t : Transport) (s0 : Nat) (srest qis pis : List Nat)
    (h : ∀ pi qi, searchStep (t pi qi s0) = .nextParam) :
    runPaths t qis (s0 :: srest) pis =
      ((pis.map (fun pi => qis.map (fun qi => (pi, qi, s0)))).flatten,
        .fellThrough) := by
  induction pis with
  | nil => rfl
  | cons pi rest ih =>
    simp [runPaths, runParams_all404 t pi s0 srest qis (h pi), ih]

/-! ## Helper lemmas: the candidate matrix is lexicographically sorted -/

theorem comboLt_style (pi qi a b : Nat) (h : a < b) :
    comboLt (pi, qi, a) (pi, qi, b) := Or.inr ⟨rfl, Or.inr ⟨rfl, h⟩⟩

theorem mem_styleBlock {pi qi : Nat} {sis : List Nat} {c : Nat × Nat × Nat}
    (hc : c ∈ sis.map (fun si => (pi, qi, si))) : c.1 = pi ∧ c.2.1 = qi := by
  obtain ⟨si, hsi, rfl⟩ := List.mem_map.mp hc
  exact ⟨rfl, rfl⟩

theorem pairwise_styleBlock (pi qi : Nat) (sis : List Nat)
    (hs : sis.Pairwise (· < ·)) :
    (sis.map (fun si => (pi, qi, si))).Pairwise comboLt := by
  rw [List.pairwise_map]
  exact hs.imp (fun h => comboLt_style _ _ _ _ h)

theorem mem_paramBlock {pi : Nat} {qis sis : List Nat} {c : Nat × Nat × Nat}
    (hc : c ∈ (qis.map (fun qi => sis.map (fun si => (pi, qi, si)))).flatten) :
    c.1 = pi := by
  obtain ⟨l, hl, hcl⟩ := List.mem_flatten.mp hc
  obtain ⟨qi, hqi, rfl⟩ := List.mem_map.mp hl
  exact (mem_styleBlock hcl).1

theorem pairwise_paramBlock (pi : Nat) (qis sis : List Nat)
    (hq : qis.Pairwise (· < ·)) (hs : sis.Pairwise (· < ·)) :
    ((qis.map (fun qi => sis.map (fun si => (pi, qi, si)))).flatten).Pairwise comboLt := by
  rw [List.pairwise_flatten]
  refine ⟨?_, ?_⟩
  · intro l hl
    obtain ⟨qi, hqi, rfl⟩ := List.mem_map.mp hl
    exact pairwise_styleBlock pi qi sis hs
  · rw [List.pairwise_map]
    refine hq.imp ?_
    intro q1 q2 hlt x hx y hy
    obtain ⟨hx1, hx2⟩ := mem_styleBlock hx
    obtain ⟨hy1, hy2⟩ := mem_styleBlock hy
    exact Or.inr ⟨hx1.trans hy1.symm, Or.inl (by rw [hx2, hy2]; exact hlt)⟩

theorem pairwise_fullMatrix (np nq ns : Nat) :
    (fullMatrix np nq ns).Pairwise comboLt := by
  rw [fullMatrix, List.pairwise_flatten]
  refine ⟨?_, ?_⟩
  · intro l hl
    obtain ⟨pi, hpi, rfl⟩ := List.mem_map.mp hl
    exact pairwise_paramBlock pi _ _ (List.pairwise_lt_range nq) (List.pairwise_lt_range ns)
  · rw [List.pairwise_map]
    refine (List.pairwise_lt_range np).imp ?_
    intro p1 p2 hlt x hx y hy
    exact Or.inl (by rw [mem_paramBlock hx, mem_paramBlock hy]; exact hlt)

/-! ## Helper lemmas: a 401/403 advances only the auth style -/

theorem chain_succ_range (m : Nat) :
    List.Chain' (fun a b => b = a + 1) (List.range m) := by
  cases m with
  | zero => simp
  | succ n =>
    rw [List.chain'_range_succ]
    intro i hi
    rfl

theorem runStyles_chain_bump (t : Transport) (pi qi ns : Nat) :
    List.Chain' (fun a b => b = (a.1, a.2.1, a.2.2 + 1))
      (runStyles t pi qi (List.range ns)).1 := by
  obtain ⟨n, hn⟩ := runStyles_trace_take t pi qi (List.range ns)
  rw [hn, List.take_range, List.chain'_map]
  refine (chain_succ_range _).imp ?_
  intro a b h
  subst h
  rfl

theorem chain_bump_advances (t : Transport) (ns : Nat) (l : List (Nat × Nat × Nat))
    (h : List.Chain' (fun a b => b = (a.1, a.2.1, a.2.2 + 1)) l) :
    List.Chain' (advancesAuth t ns) l :=
  h.imp (fun _ _ hab _ _ => hab)

theorem runStyles_lastSafe (t : Transport) (pi qi ns : Nat)
    (h : (runStyles t pi qi (List.range ns)).2 = .broke ∨
      (runStyles t pi qi (List.range ns)).2 = .fellThrough) :
    ∀ c, (runStyles t pi qi (List.range ns)).1.getLast? = some c →
      ∀ y, advancesAuth t ns c y := by
  intro c hc y hauth hlt
  rcases h with h | h
  · obtain ⟨c2, hc2, hcs⟩ := runStyles_last_broke t pi qi _ h
    rw [hc] at hc2
    injection hc2 with hc2
    subst hc2
    have := searchStep_auth (respAt t c) hauth
    rw [hcs] at this
    exact Outcome.noConfusion this
  · have htr := runStyles_fellThrough t pi qi _ h
    rw [htr] at hc
    cases ns with
    | zero => simp at hc
    | succ m =>
      rw [List.range_succ, List.map_append,
        List.getLast?_append_of_ne_nil _ (by simp)] at hc
      simp only [List.map_cons, List.map_nil, List.getLast?_singleton,
        Option.some.injEq] at hc
      subst hc
      simp only at hlt
      omega

theorem runParams_chain (t : Transport) (pi ns : Nat) (qis : List Nat) :
    List.Chain' (advancesAuth t ns) (runParams t pi (List.range ns) qis).1 := by
  induction qis with
  | nil => simp [runParams]
  | cons qi rest ih =>
    cases hr : (runStyles t pi qi (List.range ns)).2 with
    | success rs =>
      simp only [runParams, hr]
      exact chain_bump_advances t ns _ (runStyles_chain_bump t pi qi ns)
    | crash =>
      simp only [runParams, hr]
      exact chain_bump_advances t ns _ (runStyles_chain_bump t pi qi ns)
    | broke =>
      simp only [runParams, hr]
      rw [List.chain'_append]
      exact ⟨chain_bump_advances t ns _ (runStyles_chain_bump t pi qi ns), ih,
        fun x hx y hy => runStyles_lastSafe t pi qi ns (Or.inl hr) x hx y⟩
    | fellThrough =>
      simp only [runParams, hr]
      rw [List.chain'_append]
      exact ⟨chain_bump_advances t ns _ (runStyles_chain_bump t pi qi ns), ih,
        fun x hx y hy => runStyles_lastSafe t pi qi ns (Or.inr hr) x hx y⟩

theorem runParams_lastSafe (t : Transport) (pi ns : Nat) (qis : List Nat)
    (h : (runParams t pi (List.range ns) qis).2 = .fellThrough) :
    ∀ c, (runParams t pi (List.range ns) qis).1.getLast? = some c →
      ∀ y, advancesAuth t ns c y := by
  induction qis with
  | nil =>
    intro c hc
    rw [runParams] at hc
    simp at hc
  | cons qi rest ih =>
    intro c hc y
    cases hr : (runStyles t pi qi (List.range ns)).2 with
    | success rs => rw [runParams] at h; simp [hr] at h
    | crash => rw [runParams] at h; simp [hr] at h
    | broke =>
      rw [runParams] at h hc
      simp only [hr] at h hc
      have ih2 := ih h
      generalize hB : (runParams t pi (List.range ns) rest).1 = B at hc ih2
      cases B with
      | nil =>
        rw [List.append_nil] at hc
        exact runStyles_lastSafe t pi qi ns (Or.inl hr) c hc y
      | cons b tl =>
        rw [List.getLast?_append_of_ne_nil _ (by simp)] at hc
        exact ih2 c hc y
    | fellThrough =>
      rw [runParams] at h hc
      simp only [hr] at h hc
      have ih2 := ih h
      generalize hB : (runParams t pi (List.range ns) rest).1 = B at hc ih2
      cases B with
      | nil =>
        rw [List.append_nil] at hc
        exact runStyles_lastSafe t pi qi ns (Or.inr hr) c hc y
      | cons b tl =>
        rw [List.getLast?_append_of_ne_nil _ (by simp)] at hc
        exact ih2 c hc y

theorem runPaths_chain (t : Transport) (ns : Nat) (qis pis : List Nat) :
    List.Chain' (advancesAuth t ns) (runPaths t qis (List.range ns) pis).1 := by
  induction pis with
  | nil => simp [runPaths]
  | cons pi rest ih =>
    cases hr : (runParams t pi (List.range ns) qis).2 with
    | success rs =>
      simp only [runPaths, hr]
      exact runParams_chain t pi ns qis
    | crash =>
      simp only [runPaths, hr]
      exact runParams_chain t pi ns qis
    | fellThrough =>
      simp only [runPaths, hr]
      rw [List.chain'_append]
      exact ⟨runParams_chain t pi ns qis, ih,
        fun x hx y hy => runParams_lastSafe t pi ns qis hr x hx y⟩

/-! ## Helper lemmas: the get-by-id and health loops -/

theorem idStep_404 (r : HResp) (h : hstatus r = some 404) :
    idStep r = .breakPath := by
  cases r with
  | exc => simp [hstatus] at h
  | resp st body =>
    have hst : st = 404 := by simpa [hstatus] using h
    subst hst
    rfl

theorem runIdPaths_all404 (t : Transport2) (s0 : Nat) (srest pis : List Nat)
    (h : ∀ pi, idStep (t pi s0) = .breakPath) :
    runIdPaths t (s0 :: srest) pis = (pis.map (fun pi => (pi, s0)), none) := by
  induction pis with
  | nil => rfl
  | cons pi rest ih =>
    have hs : runIdStyles t pi (s0 :: srest) = ([(pi, s0)], none) := by
      simp [runIdStyles, h pi]
    simp [runIdPaths, hs, ih]

theorem runHealthStyles_head (t : Transport2) (pi s : Nat) (rest : List Nat) :
    ∃ tl, (runHealthStyles t pi (s :: rest)).1 = (pi, s) :: tl := by
  cases hs : healthStep (t pi s) with
  | payload j => exact ⟨[], by simp [runHealthStyles, hs]⟩
  | breakPath => exact ⟨[], by simp [runHealthStyles, hs]⟩
  | nextStyle =>
    exact ⟨(runHealthStyles t pi rest).1, by simp [runHealthStyles, hs]⟩

/-! ## Claim C1 -/

/-- Claim C1 (corrected) counterexample: with the production candidate
sizes (6 search paths, 5 query keys, 4 auth styles) and a stub
transport answering 404 everywhere, the loop issues five requests
against path 0 — one per parameter-name candidate — not exactly one,
because the `break` on 404 leaves only the auth-style loop. -/
theorem C1_counterexample :
    ((search_probe (fun _ _ _ => .resp 404 .empty) 6 5 4).1.countP
      (fun c => c.1 == 0)) = 5 ∧
    (search_probe (fun _ _ _ => .resp 404 .empty) 6 5 4).1.length = 30 ∧
    (5 : Nat) ≠ 1 := by
  decide

/-- Claim C1 as amended: in the search operations a 404 abandons only
the remaining auth styles for the current (path, parameter-name) pair;
the loop then proceeds to the next parameter-name on the same path, so
a path whose every response is 404 receives exactly one request per
parameter-name candidate (never parameter-names × auth-styles, and not
one).  The fetch-by-id operation has no parameter-name dimension, so
there a 404 does advance directly to the next path with one request per
404 path. -/
theorem C1_amended :
    (∀ (t : Transport) (np nq ns : Nat), 1 ≤ ns →
      (∀ pi qi si, hstatus (t pi qi si) = some 404) →
      (search_probe t np nq ns).1 =
        ((List.range np).map (fun pi =>
          (List.range nq).map (fun qi => (pi, qi, 0)))).flatten ∧
      search_courses t np nq ns = .ok []) ∧
    (∀ (t : Transport2) (np ns : Nat), 1 ≤ ns →
      (∀ pi si, hstatus (t pi si) = some 404) →
      (get_course_by_id t np ns).1 = (List.range np).map (fun pi => (pi, 0)) ∧
      (get_course_by_id t np ns).2 = none) := by
  constructor
  · intro t np nq ns hns h404
    obtain ⟨m, rfl⟩ : ∃ m, ns = m + 1 := ⟨ns - 1, by omega⟩
    have key : search_probe t np nq (m + 1) =
        (((List.range np).map (fun pi =>
          (List.range nq).map (fun qi => (pi, qi, 0)))).flatten, .fellThrough) := by
      show runPaths t (List.range nq) (List.range (m + 1)) (List.range np) = _
      rw [List.range_succ_eq_map]
      exact runPaths_all404 t 0 _ _ _
        (fun pi qi => searchStep_404 _ (h404 pi qi 0))
    refine ⟨by rw [key], ?_⟩
    rw [search_courses, key]
  · intro t np ns hns h404
    obtain ⟨m, rfl⟩ : ∃ m, ns = m + 1 := ⟨ns - 1, by omega⟩
    have key : get_course_by_id t np (m + 1) =
        ((List.range np).map (fun pi => (pi, 0)), none) := by
      show runIdPaths t (List.range (m + 1)) (List.range np) = _
      rw [List.range_succ_eq_map]
      exact runIdPaths_all404 t 0 _ _ (fun pi => idStep_404 _ (h404 pi 0))
    exact ⟨by rw [key], by rw [key]⟩

/-- Witness for C1 as amended: the all-404 stub transport at concrete
sizes — two requests for the two paths of the id loop, and one request
per parameter name for the search loop. -/
theorem C1_amended_witness :
    (search_probe (fun _ _ _ => .resp 404 .empty) 2 3 4).1 =
      ((List.range 2).map (fun pi =>
        (List.range 3).map (fun qi => (pi, qi, 0)))).flatten ∧
    search_courses (fun _ _ _ => .resp 404 .empty) 2 3 4 = .ok [] ∧
    (get_course_by_id (fun _ _ => .resp 404 .empty) 2 4).1 =
      (List.range 2).map (fun pi => (pi, 0)) :=
  ⟨(C1_amended.1 (fun _ _ _ => .resp 404 .empty) 2 3 4 (by omega) (fun _ _ _ => rfl)).1,
   (C1_amended.1 (fun _ _ _ => .resp 404 .empty) 2 3 4 (by omega) (fun _ _ _ => rfl)).2,
   (C1_amended.2 (fun _ _ => .resp 404 .empty) 2 4 (by omega) (fun _ _ => rfl)).1⟩

/-! ## Claim C8 -/

/-- Claim C8 (corrected) counterexample: a 2xx response whose body is
the valid JSON document "hello" (a string, not a list or object) makes
`_normalize_courses` raise an AttributeError that the probing loop's
`except requests.RequestException` does not catch: the loop stops after
one request and the exception propagates to the caller. -/
theorem C8_counterexample :
    search_courses (fun _ _ _ => .resp 200 (.val (.str "hello"))) 6 5 4 =
      .error () ∧
    (search_probe (fun _ _ _ => .resp 200 (.val (.str "hello"))) 6 5 4).1 =
      [(0, 0, 0)] :=
  ⟨rfl, rfl⟩

/-- Claim C8 as amended: failures raised by the HTTP layer itself
(timeout, connection refused, non-2xx statuses, undecodable bodies) are
caught inside the loop, which continues and returns the empty list on
exhaustion — a transport that always raises walks the whole candidate
matrix and yields `[]`; but an exception raised while normalizing a
decoded body of unexpected shape is not caught and propagates to the
caller. -/
theorem C8_amended :
    (∀ (t : Transport) (np nq ns : Nat),
      (∀ pi qi si, searchStep (t pi qi si) ≠ .crash) →
      (search_probe t np nq ns).2 ≠ LoopRes.crash ∧
      search_courses t np nq ns ≠ .error ()) ∧
    (∀ (t : Transport) (np nq ns : Nat),
      (∀ pi qi si, t pi qi si = .exc) →
      (search_probe t np nq ns).1 = fullMatrix np nq ns ∧
      search_courses t np nq ns = .ok []) := by
  constructor
  · intro t np nq ns h
    have hnc : (search_probe t np nq ns).2 ≠ LoopRes.crash :=
      runPaths_no_crash t _ _ _ h
    refine ⟨hnc, ?_⟩
    cases hres : (search_probe t np nq ns).2 with
    | success rs => simp [search_courses, hres]
    | crash => exact absurd hres hnc
    | fellThrough => simp [search_courses, hres]
  · intro t np nq ns h
    have h2 : ∀ pi qi si, searchStep (t pi qi si) = .nextStyle := by
      intro pi qi si
      rw [h pi qi si]
      rfl
    have key := runPaths_all_nextStyle t (List.range nq) (List.range ns)
      (List.range np) h2
    constructor
    · show (runPaths t (List.range nq) (List.range ns) (List.range np)).1 = _
      rw [key, fullMatrix]
    · rw [search_courses]
      show (match (runPaths t (List.range nq) (List.range ns) (List.range np)).2 with
        | .success rs => Except.ok rs
        | .crash => Except.error ()
        | .fellThrough => Except.ok []) = Except.ok []
      rw [key]

/-- Witness for C8 as amended: a transport that always raises a request
exception never crashes the loop and returns the empty list after
exhausting the matrix. -/
theorem C8_amended_witness :
    (search_probe (fun _ _ _ => .exc) 2 2 2).2 ≠ LoopRes.crash ∧
    search_courses (fun _ _ _ => .exc) 2 2 2 = .ok [] :=
  ⟨(C8_amended.1 (fun _ _ _ => .exc) 2 2 2
      (fun _ _ _ => by simp [searchStep])).1,
   (C8_amended.2 (fun _ _ _ => .exc) 2 2 2 (fun _ _ _ => rfl)).2⟩

/-! ## Claim C4 -/

/-- Claim C4 (corrected) counterexample: with an all-401 transport the
attempt right after the 401 at (path 0, parameter 0, style 1) — the
last auth style of a 2-style matrix — is (path 0, parameter 1,
style 0): the 401 at the final auth style falls through to the next
parameter name, so the very next request does not keep the same
parameter-name. -/
theorem C4_counterexample :
    (search_probe (fun _ _ _ => .resp 401 .empty) 2 2 2).1 =
      [(0, 0, 0), (0, 0, 1), (0, 1, 0), (0, 1, 1),
       (1, 0, 0), (1, 0, 1), (1, 1, 0), (1, 1, 1)] ∧
    hstatus (respAt (fun _ _ _ => .resp 401 .empty) (0, 0, 1)) = some 401 ∧
    ((0, 1, 0) : Nat × Nat × Nat).2.1 ≠ ((0, 0, 1) : Nat × Nat × Nat).2.1 := by
  decide

/-- Claim C4 as amended: for every stubbed transport the attempted
combinations are strictly increasing in the nested lexicographic order
(path, then parameter-name, then auth-style); no attempt before the
last one classifies as Success and a Success result is produced by the
final attempt, so the traversal stops at the first Success; and a
401/403 response advances only the auth-style dimension whenever a
further auth style remains — when the 401/403 hits the last auth style
the traversal falls through to the next parameter-name (or path). -/
theorem C4_amended (t : Transport) (np nq ns : Nat) :
    (search_probe t np nq ns).1.Pairwise comboLt ∧
    (∀ c ∈ (search_probe t np nq ns).1.dropLast,
      isSucc (searchStep (respAt t c)) = false) ∧
    (∀ rs, (search_probe t np nq ns).2 = .success rs →
      ∃ c, (search_probe t np nq ns).1.getLast? = some c ∧
        searchStep (respAt t c) = .success rs) ∧
    List.Chain' (advancesAuth t ns) (search_probe t np nq ns).1 :=
  ⟨(pairwise_fullMatrix np nq ns).sublist (runPaths_sublist t _ _ _),
   runPaths_dropLast_nonsucc t _ _ _,
   fun rs h => runPaths_last_success t _ _ _ rs h,
   runPaths_chain t ns _ _⟩

/-- Witness for C4 as amended at the all-401 transport with a 2×2×2
matrix: the trace is lexicographically sorted, its first attempt is not
a success, and consecutive attempts satisfy the auth-advance relation. -/
theorem C4_amended_witness :
    (search_probe (fun _ _ _ => .resp 401 .empty) 2 2 2).1.Pairwise comboLt ∧
    isSucc (searchStep (respAt (fun _ _ _ => .resp 401 .empty) (0, 0, 0))) = false ∧
    List.Chain' (advancesAuth (fun _ _ _ => .resp 401 .empty) 2)
      (search_probe (fun _ _ _ => .resp 401 .empty) 2 2 2).1 :=
  ⟨(C4_amended (fun _ _ _ => .resp 401 .empty) 2 2 2).1,
   (C4_amended (fun _ _ _ => .resp 401 .empty) 2 2 2).2.1 (0, 0, 0) (by decide),
   (C4_amended (fun _ _ _ => .resp 401 .empty) 2 2 2).2.2.2⟩

/-! ## Helper lemmas: health-path loop steps -/

theorem runHealthPaths_falsy_step (t : Transport2) (sis : List Nat) (p : Nat)
    (prest : List Nat) (acc : JVal)
    (h : (runHealthStyles t p sis).2 = some (.obj [])) :
    runHealthPaths t sis acc (p :: prest) =
      ((runHealthStyles t p sis).1 ++ (runHealthPaths t sis (.obj []) prest).1,
        (runHealthPaths t sis (.obj []) prest).2) := by
  simp [runHealthPaths, h, truthy]

theorem runHealthPaths_head (t : Transport2) (s0 : Nat) (srest : List Nat)
    (acc : JVal) (p : Nat) (prest : List Nat) :
    ∃ tl, (runHealthPaths t (s0 :: srest) acc (p :: prest)).1 = (p, s0) :: tl := by
  obtain ⟨tl2, htl2⟩ := runHealthStyles_head t p s0 srest
  rw [runHealthPaths]
  by_cases hc : truthy (match (runHealthStyles t p (s0 :: srest)).2 with
    | some j => j
    | none => acc) = true
  · rw [if_pos hc]
    exact ⟨tl2, htl2⟩
  · rw [if_neg hc]
    refine ⟨tl2 ++ (runHealthPaths t (s0 :: srest)
      (match (runHealthStyles t p (s0 :: srest)).2 with
        | some j => j
        | none => acc) prest).1, ?_⟩
    rw [htl2]
    simp

/-! ## Claim C3 -/

/-- Claim C3 (corrected) counterexample: a stub transport whose very
first health-probe combination answers 200 with the JSON body `{}` —
a 2xx — does not make the probe succeed and return: the probe goes on
to issue one request against each of the six remaining/other paths and
finishes with a falsy account payload. -/
theorem C3_counterexample :
    (health_account_probe
      (fun p s => if p = 0 ∧ s = 0 then .resp 200 (.val (.obj []))
        else .resp 404 .empty) 6 4).1 =
      [(0, 0), (1, 0), (2, 0), (3, 0), (4, 0), (5, 0)] ∧
    truthy (health_account_probe
      (fun p s => if p = 0 ∧ s = 0 then .resp 200 (.val (.obj []))
        else .resp 404 .empty) 6 4).2 = false ∧
    (6 : Nat) ≠ 1 := by
  refine ⟨by decide, by decide, by decide⟩

/-- Claim C3 as amended: in the search operations a 2xx body that
normalizes to zero results is not a success — a transport answering
200 with `[]` everywhere exhausts the entire matrix and returns the
empty list; the resolver returns immediately at the first Success, both
for search (a successful first combination ends the run after exactly
one request) and for the health probe when the 2xx body parses to a
truthy payload; but a health-probe 2xx whose JSON body is falsy (e.g.
`{}`) ends only the current path and probing continues with the next
path rather than returning. -/
theorem C3_amended :
    (∀ (t : Transport) (np nq ns : Nat),
      (∀ pi qi si, t pi qi si = .resp 200 (.val (.arr []))) →
      search_probe t np nq ns = (fullMatrix np nq ns, .fellThrough) ∧
      search_courses t np nq ns = .ok []) ∧
    (∀ (t : Transport) (rs : List JVal) (np nq ns : Nat),
      1 ≤ np → 1 ≤ nq → 1 ≤ ns → searchStep (t 0 0 0) = .success rs →
      search_probe t np nq ns = ([(0, 0, 0)], .success rs) ∧
      search_courses t np nq ns = .ok rs) ∧
    (∀ (t : Transport2) (j : JVal) (np ns : Nat), truthy j = true →
      1 ≤ np → 1 ≤ ns → t 0 0 = .resp 200 (.val j) →
      health_account_probe t np ns = ([(0, 0)], j)) ∧
    (∀ (t : Transport2) (np ns : Nat), 2 ≤ np → 1 ≤ ns →
      t 0 0 = .resp 200 (.val (.obj [])) →
      (health_account_probe t np ns).1.take 2 = [(0, 0), (1, 0)] ∧
      (health_account_probe t np ns).1.length ≠ 1) := by
  refine ⟨?_, ?_, ?_, ?_⟩
  · intro t np nq ns h
    have h2 : ∀ pi qi si, searchStep (t pi qi si) = .nextStyle := by
      intro pi qi si
      rw [h pi qi si]
      rfl
    have key := runPaths_all_nextStyle t (List.range nq) (List.range ns)
      (List.range np) h2
    constructor
    · show runPaths t (List.range nq) (List.range ns) (List.range np) =
        (fullMatrix np nq ns, LoopRes.fellThrough)
      rw [key, fullMatrix]
    · rw [search_courses]
      show (match (runPaths t (List.range nq) (List.range ns) (List.range np)).2 with
        | .success rs => Except.ok rs
        | .crash => Except.error ()
        | .fellThrough => Except.ok []) = Except.ok []
      rw [key]
  · intro t rs np nq ns hnp hnq hns hstep
    obtain ⟨a, rfl⟩ : ∃ a, np = a + 1 := ⟨np - 1, by omega⟩
    obtain ⟨b, rfl⟩ : ∃ b, nq = b + 1 := ⟨nq - 1, by omega⟩
    obtain ⟨c, rfl⟩ : ∃ c, ns = c + 1 := ⟨ns - 1, by omega⟩
    have hsty : runStyles t 0 0 (List.range (c + 1)) = ([(0, 0, 0)], .success rs) := by
      rw [List.range_succ_eq_map c]
      simp [runStyles, hstep]
    have hpar : runParams t 0 (List.range (c + 1)) (List.range (b + 1)) =
        ([(0, 0, 0)], .success rs) := by
      rw [List.range_succ_eq_map b]
      simp [runParams, hsty]
    have hpath : runPaths t (List.range (b + 1)) (List.range (c + 1))
        (List.range (a + 1)) = ([(0, 0, 0)], .success rs) := by
      rw [List.range_succ_eq_map a]
      simp [runPaths, hpar]
    refine ⟨hpath, ?_⟩
    rw [search_courses]
    show (match (runPaths t (List.range (b + 1)) (List.range (c + 1))
        (List.range (a + 1))).2 with
      | .success rs => Except.ok rs
      | .crash => Except.error ()
      | .fellThrough => Except.ok []) = Except.ok rs
    rw [hpath]
  · intro t j np ns hj hnp hns ht
    obtain ⟨a, rfl⟩ : ∃ a, np = a + 1 := ⟨np - 1, by omega⟩
    obtain ⟨b, rfl⟩ : ∃ b, ns = b + 1 := ⟨ns - 1, by omega⟩
    have hstep : healthStep (t 0 0) = .payload j := by
      rw [ht]
      rfl
    have hsty : runHealthStyles t 0 (List.range (b + 1)) = ([(0, 0)], some j) := by
      rw [List.range_succ_eq_map b]
      simp [runHealthStyles, hstep]
    show runHealthPaths t (List.range (b + 1)) .null (List.range (a + 1)) =
      ([(0, 0)], j)
    rw [List.range_succ_eq_map a]
    simp [runHealthPaths, hsty, hj]
  · intro t np ns hnp hns ht
    obtain ⟨a, rfl⟩ : ∃ a, np = a + 2 := ⟨np - 2, by omega⟩
    obtain ⟨b, rfl⟩ : ∃ b, ns = b + 1 := ⟨ns - 1, by omega⟩
    have hstep : healthStep (t 0 0) = .payload (.obj []) := by
      rw [ht]
      rfl
    have hsty : runHealthStyles t 0 (List.range (b + 1)) =
        ([(0, 0)], some (.obj [])) := by
      rw [List.range_succ_eq_map b]
      simp [runHealthStyles, hstep]
    have hkey : ∃ tl, (health_account_probe t (a + 2) (b + 1)).1 =
        (0, 0) :: (1, 0) :: tl := by
      show ∃ tl,
        (runHealthPaths t (List.range (b + 1)) .null (List.range (a + 2))).1 = _
      rw [List.range_succ_eq_map (a + 1), List.range_succ_eq_map a, List.map_cons]
      rw [runHealthPaths_falsy_step t _ _ _ _ (by rw [hsty])]
      rw [hsty]
      obtain ⟨tl, htl⟩ := runHealthPaths_head t 0
        ((List.range b).map Nat.succ) (.obj []) (Nat.succ 0)
        (((List.range a).map Nat.succ).map Nat.succ)
      rw [List.range_succ_eq_map b, htl]
      exact ⟨tl, rfl⟩
    obtain ⟨tl, htl⟩ := hkey
    constructor
    · rw [htl]
      rfl
    · rw [htl]
      simp

/-- Witness for C3 as amended: a health transport answering 200 with
the truthy body 7 at the very first combination makes the probe return
immediately with exactly one attempted combination. -/
theorem C3_amended_witness :
    health_account_probe (fun _ _ => .resp 200 (.val (.num 7))) 6 4 =
      ([(0, 0)], .num 7) :=
  C3_amended.2.2.1 (fun _ _ => .resp 200 (.val (.num 7))) (.num 7) 6 4
    (by decide) (by omega) (by omega) rfl

end Golf
